import Mathlib

/-!
Verification of the slack-bot-cli core against its specification.

The Python sources (src/formatting.py, src/cli.py, src/app.py) are embedded
shallowly: each regex substitution of formatting.py is modelled as a
character-level scanner with exactly the leftmost, non-overlapping matching
semantics of Python re.sub for that particular pattern; the pagination loops
of cli.py and app.py are modelled as functions consuming the stream of API
responses (the n-th response is what the n-th API call returned); the
watermark logic of display_messages and the control flow of send_message and
resolve_user_name are modelled as pure state-passing functions.  Python
dicts that are only read are modelled as functions to Option, dicts that are
also written as association lists with insert-at-head (later writes win).
-/

namespace SlackBot

/-! ## Character classes used by the regexes of formatting.py -/

/-- Python regex whitespace for the ASCII range: the characters matched by
the regex class backslash-s that can occur in this development. -/
def pySpace (c : Char) : Bool :=
  decide (c = ' ' ∨ c = '\t' ∨ c = '\n' ∨ c = '\r' ∨ c = '\x0b' ∨ c = '\x0c')

/-- The character class A-Z0-9 used for user and channel ids. -/
def isUpperAlnum (c : Char) : Bool :=
  decide ((65 ≤ c.toNat ∧ c.toNat ≤ 90) ∨ (48 ≤ c.toNat ∧ c.toNat ≤ 57))

/-- The character class a-zA-Z0-9_.- of the at-mention token regex in
resolve_mentions_in_message. -/
def mentionChar (c : Char) : Bool :=
  decide ((97 ≤ c.toNat ∧ c.toNat ≤ 122) ∨ (65 ≤ c.toNat ∧ c.toNat ≤ 90) ∨
    (48 ≤ c.toNat ∧ c.toNat ≤ 57) ∨ c = '_' ∨ c = '.' ∨ c = '-')

/-- The character class of the URL body in format_user_input: anything that
is not whitespace and not a right angle bracket. -/
def urlChar (c : Char) : Bool := !(pySpace c) && (c != '>')

/-! ## Generic scanning helpers -/

/-- Split a character list at the first character satisfying p:
returns (before, hit, after), where no character of before satisfies p and
hit does.  This is how a greedy negated character class followed by the
delimiter behaves in the patterns of formatting.py. -/
def breakAt (p : Char → Bool) : List Char → Option (List Char × Char × List Char)
  | [] => none
  | c :: cs =>
    if p c then some ([], c, cs)
    else
      match breakAt p cs with
      | some (a, h, b) => some (c :: a, h, b)
      | none => none

/-- Greedy maximal run of characters satisfying p (the behaviour of a greedy
character class with nothing forcing backtracking into it). -/
def spanP (p : Char → Bool) : List Char → List Char × List Char
  | [] => ([], [])
  | c :: cs =>
    if p c then
      let s := spanP p cs
      (c :: s.1, s.2)
    else ([], c :: cs)

/-- Strip an http or https scheme: the behaviour of the regex piece
http s-question-mark colon-slash-slash (the optional s is tried first, then
backtracked, which is equivalent to testing the longer prefix first). -/
def stripScheme (l : List Char) : Option (List Char × List Char) :=
  if ("https://".data).isPrefixOf l then some ("https://".data, l.drop 8)
  else if ("http://".data).isPrefixOf l then some ("http://".data, l.drop 7)
  else none

/-- One pass of re.sub for a fixed pattern, given a matcher that, when the
pattern matches at the current position, returns the replacement text and
the remainder of the input after the match.  Mirrors Python semantics:
leftmost match, replacement text is not rescanned, scanning resumes after
the matched text.  The fuel argument is an upper bound on the number of
scanning steps; runSub supplies the input length, which always suffices
because every step consumes at least one character. -/
def subGen (m : List Char → Option (List Char × List Char)) : Nat → List Char → List Char
  | 0, l => l
  | _ + 1, [] => []
  | f + 1, c :: cs =>
    match m (c :: cs) with
    | some (r, rest) => r ++ subGen m f rest
    | none => c :: subGen m f cs

def runSub (m : List Char → Option (List Char × List Char)) (l : List Char) : List Char :=
  subGen m l.length l

/-! ## The inbound rules of parse_slack_formatting (formatting.py lines 12-41) -/

/-- Replacement text of the labeled-hyperlink rule. -/
def linkRepl (url lab : List Char) : List Char :=
  "[link=\"".data ++ url ++ "\"][blue]".data ++ lab ++ "[/blue][/link]".data

/-- Rule 1: left angle, one or more characters that are neither pipe nor
right angle (group url), a pipe, one or more non-right-angle characters
(group label), right angle. -/
def rule1 : List Char → Option (List Char × List Char)
  | [] => none
  | c :: cs =>
    if c = '<' then
      match breakAt (fun d => d = '|' || d = '>') cs with
      | some (a, h, b) =>
        if h = '|' then
          if a = [] then none
          else
            match breakAt (fun d => d = '>') b with
            | some (u, _, v) => if u = [] then none else some (linkRepl a u, v)
            | none => none
        else none
      | none => none
    else none

/-- Rule 2: left angle, an http or https URL up to the next right angle. -/
def rule2 : List Char → Option (List Char × List Char)
  | [] => none
  | c :: cs =>
    if c = '<' then
      match stripScheme cs with
      | some (sch, rest0) =>
        match breakAt (fun d => d = '>') rest0 with
        | some (u, _, v) =>
          if u = [] then none
          else some (linkRepl (sch ++ u) (sch ++ u), v)
        | none => none
      | none => none
    else none

/-- Rule 3: a user mention, left angle, at sign, a nonempty run of A-Z0-9,
right angle; the replacement resolves the id through the user cache with the
raw id as default. -/
def rule3 (ucache : String → Option String) : List Char → Option (List Char × List Char)
  | [] => none
  | c :: cs =>
    if c = '<' then
      match cs with
      | c2 :: cs2 =>
        if c2 = '@' then
          let s := spanP isUpperAlnum cs2
          if s.1 = [] then none
          else
            match s.2 with
            | c3 :: rest =>
              if c3 = '>' then
                let uid := String.mk s.1
                let nm := (ucache uid).getD uid
                some ("[yellow]@".data ++ nm.data ++ "[/yellow]".data, rest)
              else none
            | [] => none
        else none
      | [] => none
    else none

/-- Rule 4: a channel mention, left angle, hash, a nonempty run of A-Z0-9,
a pipe, a possibly empty run of non-right-angle characters (the label),
right angle; an empty label falls back to the channel cache with the raw id
as default. -/
def rule4 (ccache : String → Option String) : List Char → Option (List Char × List Char)
  | [] => none
  | c :: cs =>
    if c = '<' then
      match cs with
      | c2 :: cs2 =>
        if c2 = '#' then
          let s := spanP isUpperAlnum cs2
          if s.1 = [] then none
          else
            match s.2 with
            | c3 :: rest =>
              if c3 = '|' then
                match breakAt (fun d => d = '>') rest with
                | some (lab, _, v) =>
                  let cid := String.mk s.1
                  let labF := if lab = [] then ((ccache cid).getD cid).data else lab
                  some ('#' :: labF, v)
                | none => none
              else none
            | [] => none
        else none
      | [] => none
    else none

/-- The lazy middle of the emphasis pattern: given the characters after the
first non-space character of the group, find the shortest middle (all
non-newline) followed by a non-space character and then the delimiter.
Returns (middle, final character, remainder after the delimiter). -/
def scanLazy (delim : Char) : List Char → Option (List Char × Char × List Char)
  | [] => none
  | [_] => none
  | e :: s :: rest =>
    if pySpace e = false ∧ s = delim then some ([], e, rest)
    else if e = '\n' then none
    else
      match scanLazy delim (s :: rest) with
      | some (mid, f, aft) => some (e :: mid, f, aft)
      | none => none

/-- Rules 5-7: delimiter, then either (non-space, lazy dot-star, non-space)
or a single non-space, then the delimiter again; the group is wrapped in the
given open and close tags.  The alternation tries the two-or-more-character
alternative (with its lazy expansion) before the single-character one,
exactly as Python does. -/
def ruleEmph (delim : Char) (tagO tagC : List Char) : List Char → Option (List Char × List Char)
  | [] => none
  | c :: cs =>
    if c = delim then
      match cs with
      | c0 :: rest =>
        if pySpace c0 then none
        else
          match scanLazy delim rest with
          | some (mid, f, aft) => some (tagO ++ (c0 :: (mid ++ [f])) ++ tagC, aft)
          | none =>
            match rest with
            | d :: rest2 => if d = delim then some (tagO ++ [c0] ++ tagC, rest2) else none
            | [] => none
      | [] => none
    else none

/-- The substitution pipeline inside the try block of parse_slack_formatting,
applied in source order. -/
def parseCore (ucache ccache : String → Option String) (l : List Char) : List Char :=
  let t1 := runSub rule1 l
  let t2 := runSub rule2 t1
  let t3 := runSub (rule3 ucache) t2
  let t4 := runSub (rule4 ccache) t3
  let t5 := runSub (ruleEmph '*' "[bold]".data "[/bold]".data) t4
  let t6 := runSub (ruleEmph '_' "[italic]".data "[/italic]".data) t5
  runSub (ruleEmph '~' "[strike]".data "[/strike]".data) t6

/-- The body of parse_slack_formatting as a fallible computation: every
substitution step is total, so the computation always succeeds; the Except
layer mirrors the try block of the source. -/
def parseAttempt (text : String) (ucache ccache : String → Option String) :
    Except String String :=
  Except.ok (String.mk (parseCore ucache ccache text.data))

/-- formatting.py parse_slack_formatting: run the substitution pipeline and
fall back to the original text if it raised (the except branch). -/
def parse_slack_formatting (text : String) (ucache ccache : String → Option String) : String :=
  match parseAttempt text ucache ccache with
  | Except.ok r => r
  | Except.error _ => text

/-! ## The outbound rules (formatting.py lines 48-67) -/

/-- Markdown link rule of format_user_input: left bracket, nonempty run of
non-right-bracket characters (label), right bracket, left paren, nonempty
run of non-right-paren characters (url), right paren; replaced by the wire
form left angle, url, pipe, label, right angle. -/
def ruleMd : List Char → Option (List Char × List Char)
  | [] => none
  | c :: cs =>
    if c = '[' then
      match breakAt (fun d => d = ']') cs with
      | some (lab, _, b) =>
        if lab = [] then none
        else
          match b with
          | c2 :: b2 =>
            if c2 = '(' then
              match breakAt (fun d => d = ')') b2 with
              | some (u, _, v) =>
                if u = [] then none
                else some ('<' :: (u ++ '|' :: (lab ++ ['>'])), v)
              | none => none
            else none
          | [] => none
      | none => none
    else none

/-- Match a bare URL at the current position (scheme, then a maximal
nonempty run of urlChar). -/
def matchUrl (l : List Char) : Option (List Char × List Char) :=
  match stripScheme l with
  | some (sch, rest0) =>
    let s := spanP urlChar rest0
    if s.1 = [] then none else some (sch ++ s.1, s.2)
  | none => none

/-- The bare-URL wrapping substitution with its negative lookbehind: a URL
is wrapped unless the character of the original text immediately before it
is a left angle or a left bracket.  prev carries that character (none at
the start of the string); after a match it is the last character of the
matched URL, since the lookbehind inspects the original text. -/
def subUrlGo : Nat → Option Char → List Char → List Char
  | 0, _, l => l
  | _ + 1, _, [] => []
  | f + 1, prev, c :: cs =>
    if prev = some '<' ∨ prev = some '[' then
      c :: subUrlGo f (some c) cs
    else
      match matchUrl (c :: cs) with
      | some (url, rest) =>
        ('<' :: (url ++ ['>'])) ++ subUrlGo f (url.getLast?.getD c) rest
      | none => c :: subUrlGo f (some c) cs

/-- formatting.py format_user_input: markdown links to wire links, then bare
URLs wrapped in angle brackets. -/
def format_user_input (text : String) : String :=
  let t1 := runSub ruleMd text.data
  String.mk (subUrlGo t1.length none t1)

/-- The reverse index of resolve_mentions_in_message: the Python dict
comprehension lowercases each display name and maps it to the user id, later
entries overwriting earlier ones; lookup therefore finds the last pair whose
lowercased name matches (lowercasing modelled per character, which agrees
with Python on ASCII names, the only ones an at-mention token can carry). -/
def reverseLookup (userMap : List (String × String)) (nameLower : List Char) : Option String :=
  (userMap.reverse.find? (fun p => p.2.data.map Char.toLower = nameLower)).map (fun p => p.1)

/-- At-mention rule: at sign followed by a nonempty run of mention
characters; a resolvable name becomes a wire mention, an unresolved one is
kept as the matched text (and scanning still advances past it). -/
def ruleMention (userMap : List (String × String)) : List Char → Option (List Char × List Char)
  | [] => none
  | c :: cs =>
    if c = '@' then
      let s := spanP mentionChar cs
      if s.1 = [] then none
      else
        match reverseLookup userMap (s.1.map Char.toLower) with
        | some uid => some ("<@".data ++ uid.data ++ ['>'], s.2)
        | none => some ('@' :: s.1, s.2)
    else none

/-- formatting.py resolve_mentions_in_message. -/
def resolve_mentions_in_message (text : String) (userMap : List (String × String)) : String :=
  String.mk (runSub (ruleMention userMap) text.data)

/-! ## Channel-list pagination (cli.py fetch_channels_impl, app.py
get_all_public_channels)

The remote API is modelled by the stream of responses the loop receives:
the n-th element of the stream is what the n-th conversations_list call
returned.  The loop state (current cursor, accumulated channels) is passed
explicitly, and the model additionally records the cursor passed to each
call and the durations of the sleeps it performs, so that retry and backoff
behaviour can be stated. -/

structure Channel where
  id : String
  name : String
  is_member : Bool
deriving DecidableEq, Repr

/-- One response of conversations_list as seen by fetch_channels_impl:
either ok with a batch and an optional next cursor, or ok false with an
error string and the optional Retry-After header, or a raised exception
with its message. -/
inductive FetchResp where
  | ok (channels : List Channel) (next_cursor : Option String)
  | fail (err : String) (retryAfterHeader : Option Nat)
  | exn (msg : String)
deriving DecidableEq, Repr

/-- How the fetch loop ended: the cursor chain ended (completed), a
non-rate-limit error or exception broke the loop (failed), or the modelled
response stream ran out (starved; never reached under the hypotheses of the
theorems below). -/
inductive FetchOutcome where
  | completed
  | failed
  | starved
deriving DecidableEq, Repr

structure FetchOut where
  channels : List Channel
  calls : List (Option String)
  sleeps : List Nat
  outcome : FetchOutcome
deriving DecidableEq, Repr

/-- True when the lowercased exception text contains ratelimited or
rate limit, the test the except branch of fetch_channels_impl performs
(lowercasing modelled per character, which agrees with Python on the ASCII
texts involved). -/
def containsSub (needle : List Char) : List Char → Bool
  | [] => needle.isEmpty
  | c :: t => needle.isPrefixOf (c :: t) || containsSub needle t

def rateLimitText (msg : String) : Bool :=
  containsSub "ratelimited".data (msg.data.map Char.toLower) ||
  containsSub "rate limit".data (msg.data.map Char.toLower)

/-- The while loop of fetch_channels_impl (cli.py lines 388-456).  Each
iteration consumes one response; ok extends the accumulator and follows the
next cursor, breaking when it is absent or empty; an ok-false ratelimited
response sleeps Retry-After (default 1) and retries with the same cursor;
any other ok-false response breaks; an exception whose text looks
rate-limited sleeps 2 and retries the same cursor; any other exception
breaks.  Status updates are purely observational and are not modelled. -/
def fetchGo : List FetchResp → Option String → List Channel → FetchOut
  | [], _, acc => ⟨acc, [], [], FetchOutcome.starved⟩
  | r :: rs, cur, acc =>
    match r with
    | FetchResp.ok batch next =>
      let acc2 := acc ++ batch
      match next with
      | none => ⟨acc2, [cur], [], FetchOutcome.completed⟩
      | some c =>
        if c = "" then ⟨acc2, [cur], [], FetchOutcome.completed⟩
        else
          let o := fetchGo rs (some c) acc2
          ⟨o.channels, cur :: o.calls, o.sleeps, o.outcome⟩
    | FetchResp.fail err ra =>
      if err = "ratelimited" then
        let o := fetchGo rs cur acc
        ⟨o.channels, cur :: o.calls, (ra.getD 1) :: o.sleeps, o.outcome⟩
      else ⟨acc, [cur], [], FetchOutcome.failed⟩
    | FetchResp.exn msg =>
      if rateLimitText msg then
        let o := fetchGo rs cur acc
        ⟨o.channels, cur :: o.calls, 2 :: o.sleeps, o.outcome⟩
      else ⟨acc, [cur], [], FetchOutcome.failed⟩

/-- cli.py fetch_channels_impl: run the loop from cursor None with an empty
accumulator. -/
def fetch_channels_impl (resps : List FetchResp) : FetchOut :=
  fetchGo resps none []

/-- After the loop, fetch_channels_impl unconditionally stores the
accumulated list and calls save_channels_cache, so the snapshot persisted
to disk is exactly the accumulator at loop exit (cli.py lines 458-460,
332-337). -/
def persistedChannels (resps : List FetchResp) : List Channel :=
  (fetch_channels_impl resps).channels

/-- One response of conversations_list as seen by app.py
get_all_public_channels (no rate-limit handling there). -/
inductive SimpleResp where
  | ok (channels : List Channel) (next_cursor : Option String)
  | notOk (err : String)
  | exn (msg : String)
deriving DecidableEq, Repr

/-- The while loop of app.py get_all_public_channels (lines 47-67): ok
extends and follows the cursor until it is absent or empty; ok false or an
exception breaks, returning the channels accumulated so far. -/
def getAllGo : List SimpleResp → List Channel → List Channel
  | [], acc => acc
  | r :: rs, acc =>
    match r with
    | SimpleResp.ok batch next =>
      let acc2 := acc ++ batch
      match next with
      | none => acc2
      | some c => if c = "" then acc2 else getAllGo rs acc2
    | SimpleResp.notOk _ => acc
    | SimpleResp.exn _ => acc

def get_all_public_channels (resps : List SimpleResp) : List Channel :=
  getAllGo resps []

/-- A well-formed middle page: its next cursor is present and nonempty, so
the loop continues. -/
def goodMid (o : Option String) : Bool :=
  match o with
  | some c => c ≠ ""
  | none => false

/-- A well-formed last page: its next cursor is absent or empty, so the
loop stops. -/
def goodLast (o : Option String) : Bool :=
  match o with
  | some c => c = ""
  | none => true

/-- A nonempty sequence of pages whose cursors chain: every page but the
last continues, the last stops. -/
def chainedPages : List (List Channel × Option String) → Bool
  | [] => false
  | [p] => goodLast p.2
  | p :: q :: rest => goodMid p.2 && chainedPages (q :: rest)

def toFetchResp (p : List Channel × Option String) : FetchResp :=
  FetchResp.ok p.1 p.2

def toSimpleResp (p : List Channel × Option String) : SimpleResp :=
  SimpleResp.ok p.1 p.2

/-! ## Per-channel polling watermark (cli.py display_messages, lines 939-951)

In the POLLING phase (a prior watermark is set), the code iterates the
fetched page oldest-first (reversed, the API returns newest-first) and, for
each message whose ts is present, nonempty and strictly greater than the
current watermark under Python string comparison, emits it and advances the
watermark to that ts.  Python string comparison is code-point
lexicographic, which is exactly the order of Lean String. -/

structure Msg where
  ts : Option String
  user : Option String
  text : String
deriving DecidableEq, Repr

/-- Python string comparison on character lists: code-point lexicographic.
This is the comparison the expression msg_ts greater-than last_message_ts
performs, written as an executable function (proved below to agree with
the order on Lean strings). -/
def pyLtL : List Char → List Char → Bool
  | [], [] => false
  | [], _ :: _ => true
  | _ :: _, [] => false
  | a :: as, b :: bs =>
    if a < b then true
    else if b < a then false
    else pyLtL as bs

def pyStrLt (a b : String) : Bool := pyLtL a.data b.data

/-- The for loop of the else branch of display_messages: w is
last_message_ts, the list is iterated in the order given (the caller
reverses the API page), and the watermark advances as messages are
emitted.  The guard mirrors msg_ts truthy and msg_ts greater than the
watermark. -/
def pollGo (w : String) : List Msg → List Msg × String
  | [] => ([], w)
  | m :: rest =>
    match m.ts with
    | some t =>
      if (t != "") && pyStrLt w t then
        let o := pollGo t rest
        (m :: o.1, o.2)
      else pollGo w rest
    | none => pollGo w rest

/-- One poll during POLLING: the API page (newest-first) is reversed, then
scanned by the loop above.  Returns the emitted messages in emission order
and the watermark after the poll. -/
def display_messages_poll (w : String) (page : List Msg) : List Msg × String :=
  pollGo w page.reverse

/-- A sequence of polls, each feeding its final watermark to the next:
returns the batches emitted by each poll and the final watermark. -/
def pollMany (w : String) : List (List Msg) → List (List Msg) × String
  | [] => ([], w)
  | page :: pages =>
    let o := display_messages_poll w page
    let os := pollMany o.2 pages
    (o.1 :: os.1, os.2)

/-- The timestamps of a list of messages, in order. -/
def tsOf (l : List Msg) : List String := l.filterMap Msg.ts

/-! ## User-name resolution (cli.py resolve_user_name, lines 730-756)

The user cache is an association list with insert-at-head (a later store
for the same key shadows an earlier one, like a Python dict assignment);
lookup takes the newest binding.  The users_info response is either ok with
the user fields, ok false, or a raised exception. -/

structure UserFields where
  real_name : Option String
  profile_real_name : Option String
  profile_display_name : Option String
  name : Option String
deriving DecidableEq, Repr

inductive UsersInfoResp where
  | ok (user : UserFields)
  | notOk
  | exn (msg : String)
deriving DecidableEq, Repr

/-- Python x or y for string-or-missing values: the left operand wins only
when it is present and nonempty (truthy). -/
def orElseTruthy (o : Option String) (k : String) : String :=
  match o with
  | some s => if s = "" then k else s
  | none => k

/-- The or-chain selecting the display name (cli.py lines 742-748). -/
def pickDisplayName (u : UserFields) (uid : String) : String :=
  orElseTruthy u.real_name
    (orElseTruthy u.profile_real_name
      (orElseTruthy u.profile_display_name
        (orElseTruthy u.name uid)))

def lookupCache (cache : List (String × String)) (k : String) : Option String :=
  (cache.find? (fun p => p.1 = k)).map (fun p => p.2)

/-- cli.py resolve_user_name as a state transformer: returns the resolved
name, the cache afterwards, and whether users_info was called.  A cache hit
returns immediately; with no slack app the id is cached and returned; an ok
response caches the picked display name; an ok-false response or an
exception caches and returns the raw id. -/
def resolve_user_name (cache : List (String × String)) (hasApp : Bool)
    (api : UsersInfoResp) (uid : String) : String × List (String × String) × Bool :=
  match lookupCache cache uid with
  | some v => (v, cache, false)
  | none =>
    if hasApp = false then (uid, (uid, uid) :: cache, false)
    else
      match api with
      | UsersInfoResp.ok u =>
        let dn := pickDisplayName u uid
        (dn, (uid, dn) :: cache, true)
      | UsersInfoResp.notOk => (uid, (uid, uid) :: cache, true)
      | UsersInfoResp.exn _ => (uid, (uid, uid) :: cache, true)

/-- The selection rule as the specification words it: the first PRESENT
field in order, regardless of emptiness.  Used only to compare the spec
sentence against the code. -/
def specFirstPresent (u : UserFields) (uid : String) : String :=
  match u.real_name with
  | some s => s
  | none =>
    match u.profile_real_name with
    | some s => s
    | none =>
      match u.profile_display_name with
      | some s => s
      | none =>
        match u.name with
        | some s => s
        | none => uid

/-! ## Sending a message (cli.py send_message, lines 974-1033)

The three API calls the worker makes are modelled as the responses they
would return; an Except.error models a raised exception, caught by the
outer try and reported as an error status.  The result records the text
passed to chat_postMessage if that call was reached, whether
conversations_join was called, and the final status line with its kind. -/

structure JoinResp where
  ok : Bool
  error : Option String
deriving DecidableEq, Repr

structure PostResp where
  ok : Bool
  error : Option String
deriving DecidableEq, Repr

structure SendApi where
  conv_info : Except String Bool
  conv_join : Except String JoinResp
  chat_post : Except String PostResp

structure SendResult where
  posted : Option String
  joinCalled : Bool
  status : String
  statusKind : String
deriving DecidableEq, Repr

/-- The tail of send_message from the chat_postMessage call on (cli.py
lines 1004-1027). -/
def sendPost (api : SendApi) (joined : Bool) (channelName message : String) : SendResult :=
  match api.chat_post with
  | Except.error e => ⟨some message, joined, "Error sending message: " ++ e, "error"⟩
  | Except.ok pr =>
    if pr.ok then
      ⟨some message, joined, "✓ Message sent to #" ++ channelName ++ "!", "success"⟩
    else
      ⟨some message, joined,
        "Failed to send message: " ++ pr.error.getD "Unknown error", "error"⟩

/-- cli.py send_message: guard on a selected channel, check membership
(is_member defaulting to False when the field is missing), join when not a
member and abort on a failed join, then post. -/
def send_message (api : SendApi) (hasChannel : Bool) (channelName message : String) :
    SendResult :=
  if hasChannel = false then ⟨none, false, "Error: No channel selected", "error"⟩
  else
    match api.conv_info with
    | Except.error e => ⟨none, false, "Error sending message: " ++ e, "error"⟩
    | Except.ok isMember =>
      if isMember = false then
        match api.conv_join with
        | Except.error e => ⟨none, true, "Error sending message: " ++ e, "error"⟩
        | Except.ok jr =>
          if jr.ok = false then
            ⟨none, true, "Failed to join channel: " ++ jr.error.getD "Unknown error",
              "error"⟩
          else sendPost api true channelName message
      else sendPost api false channelName message

/-! ## Lemmas: polling watermark (claim C1) -/

lemma pyLtL_iff : ∀ a b : List Char, pyLtL a b = true ↔ a < b := by
  intro a
  induction a with
  | nil =>
    intro b
    cases b with
    | nil =>
      refine iff_of_false (by simp [pyLtL]) ?_
      exact List.Lex.not_nil_right _ _
    | cons c cs =>
      refine iff_of_true (by simp [pyLtL]) ?_
      exact List.Lex.nil
  | cons x xs ih =>
    intro b
    cases b with
    | nil =>
      refine iff_of_false (by simp [pyLtL]) ?_
      exact List.Lex.not_nil_right _ _
    | cons y ys =>
      by_cases h1 : x < y
      · refine iff_of_true ?_ (List.Lex.rel h1)
        simp [pyLtL, if_pos h1]
      · by_cases h2 : y < x
        · refine iff_of_false ?_ ?_
          · simp [pyLtL, if_neg h1, if_pos h2]
          · intro h
            cases h with
            | cons h' => exact lt_irrefl _ h2
            | rel h' => exact h1 h'
        · have hxy : x = y := le_antisymm (not_lt.mp h2) (not_lt.mp h1)
          subst hxy
          have hred : pyLtL (x :: xs) (x :: ys) = pyLtL xs ys := by
            simp [pyLtL, if_neg h1]
          rw [hred, ih ys]
          constructor
          · exact fun h => List.Lex.cons h
          · intro h
            cases h with
            | cons h' => exact h'
            | rel h' => exact absurd h' (lt_irrefl _)

lemma pyStrLt_iff (a b : String) : pyStrLt a b = true ↔ a < b := by
  rw [String.lt_iff_toList_lt]
  exact pyLtL_iff a.data b.data

lemma pollGo_spec (l : List Msg) : ∀ w : String,
    (∀ m ∈ (pollGo w l).1, ∃ t, m.ts = some t ∧ w < t ∧ t ≤ (pollGo w l).2)
    ∧ w ≤ (pollGo w l).2
    ∧ List.Chain' (fun a b => a < b) (tsOf (pollGo w l).1)
    ∧ (pollGo w l).2 = (tsOf (pollGo w l).1).foldl max w := by
  induction l with
  | nil => intro w; simp [pollGo, tsOf]
  | cons m rest ih =>
    intro w
    cases hts : m.ts with
    | none =>
      simpa only [pollGo, hts] using ih w
    | some t =>
      by_cases hb : ((t != "") && pyStrLt w t) = true
      · have hc : t ≠ "" ∧ w < t := by
          rw [Bool.and_eq_true, bne_iff_ne, pyStrLt_iff] at hb
          exact hb
        obtain ⟨ih1, ih2, ih3, ih4⟩ := ih t
        have hred : pollGo w (m :: rest) = (m :: (pollGo t rest).1, (pollGo t rest).2) := by
          simp [pollGo, hts, hb]
        rw [hred]
        have htsOf : tsOf (m :: (pollGo t rest).1) = t :: tsOf (pollGo t rest).1 := by
          simp [tsOf, List.filterMap_cons, hts]
        refine ⟨?_, ?_, ?_, ?_⟩
        · intro m' hm'
          rcases List.mem_cons.mp hm' with h | h
          · exact ⟨t, by rw [h, hts], hc.2, by simpa using ih2⟩
          · obtain ⟨t', ht1, ht2, ht3⟩ := ih1 m' h
            exact ⟨t', ht1, lt_trans hc.2 ht2, by simpa using ht3⟩
        · exact le_of_lt (lt_of_lt_of_le hc.2 ih2)
        · rw [htsOf]
          refine List.chain'_cons'.mpr ⟨?_, ih3⟩
          intro b hb
          have hmem : b ∈ tsOf (pollGo t rest).1 := List.mem_of_mem_head? hb
          obtain ⟨m', hm', hsome⟩ := List.mem_filterMap.mp hmem
          obtain ⟨t', ht1, ht2, _⟩ := ih1 m' hm'
          rw [ht1] at hsome
          cases hsome
          exact ht2
        · rw [htsOf]
          simp only [List.foldl_cons]
          rw [max_eq_right (le_of_lt hc.2)]
          exact ih4
      · have hred : pollGo w (m :: rest) = pollGo w rest := by
          simp only [pollGo, hts]
          rw [if_neg hb]
        rw [hred]
        exact ih w

lemma pollMany_le (pages : List (List Msg)) : ∀ w, w ≤ (pollMany w pages).2 := by
  induction pages with
  | nil => intro w; simp [pollMany]
  | cons p ps ih =>
    intro w
    have h1 := (pollGo_spec p.reverse w).2.1
    calc w ≤ (pollGo w p.reverse).2 := h1
      _ ≤ (pollMany (pollGo w p.reverse).2 ps).2 := ih _
      _ = (pollMany w (p :: ps)).2 := by simp [pollMany, display_messages_poll]

lemma pollMany_gt (pages : List (List Msg)) :
    ∀ w, ∀ E ∈ (pollMany w pages).1, ∀ t ∈ tsOf E, w < t := by
  induction pages with
  | nil => intro w E hE; simp [pollMany] at hE
  | cons p ps ih =>
    intro w E hE t ht
    have hred : (pollMany w (p :: ps)).1
        = (pollGo w p.reverse).1 :: (pollMany (pollGo w p.reverse).2 ps).1 := by
      simp [pollMany, display_messages_poll]
    rw [hred] at hE
    rcases List.mem_cons.mp hE with h | h
    · subst h
      obtain ⟨m', hm', hsome⟩ := List.mem_filterMap.mp ht
      obtain ⟨t', ht1, ht2, _⟩ := (pollGo_spec p.reverse w).1 m' hm'
      rw [ht1] at hsome
      cases hsome
      exact ht2
    · have hw := (pollGo_spec p.reverse w).2.1
      exact lt_of_le_of_lt hw (ih _ E h t ht)

lemma pollMany_pairwise (pages : List (List Msg)) :
    ∀ w, List.Pairwise
      (fun E1 E2 => ∀ t1 ∈ tsOf E1, ∀ t2 ∈ tsOf E2, t1 < t2) (pollMany w pages).1 := by
  induction pages with
  | nil => intro w; simp [pollMany]
  | cons p ps ih =>
    intro w
    have hred : (pollMany w (p :: ps)).1
        = (pollGo w p.reverse).1 :: (pollMany (pollGo w p.reverse).2 ps).1 := by
      simp [pollMany, display_messages_poll]
    rw [hred]
    refine List.Pairwise.cons ?_ (ih _)
    intro E' hE' t1 ht1 t2 ht2
    obtain ⟨m', hm', hsome⟩ := List.mem_filterMap.mp ht1
    obtain ⟨t', hta, _, htc⟩ := (pollGo_spec p.reverse w).1 m' hm'
    rw [hta] at hsome
    cases hsome
    exact lt_of_le_of_lt htc (pollMany_gt ps _ E' hE' t2 ht2)

/-- C1: during POLLING with a prior watermark set, a poll emits only
messages whose ts is strictly greater than the watermark before the poll;
the emitted timestamps are strictly increasing (oldest-first); the
watermark afterwards is the maximum of the emitted timestamps and the prior
watermark; and across any sequence of polls the emitted batches are
blockwise strictly increasing in ts, so no timestamp is ever emitted
twice. -/
theorem c1_watermark_monotonicity :
    (∀ w page, ∀ m ∈ (display_messages_poll w page).1, ∃ t, m.ts = some t ∧ w < t)
    ∧ (∀ w page, List.Chain' (fun a b => a < b) (tsOf (display_messages_poll w page).1))
    ∧ (∀ w page, (display_messages_poll w page).2
        = (tsOf (display_messages_poll w page).1).foldl max w)
    ∧ (∀ w pages, List.Pairwise
        (fun E1 E2 => ∀ t1 ∈ tsOf E1, ∀ t2 ∈ tsOf E2, t1 < t2) (pollMany w pages).1) := by
  refine ⟨?_, ?_, ?_, ?_⟩
  · intro w page m hm
    obtain ⟨t, h1, h2, _⟩ := (pollGo_spec page.reverse w).1 m hm
    exact ⟨t, h1, h2⟩
  · intro w page
    exact (pollGo_spec page.reverse w).2.2.1
  · intro w page
    exact (pollGo_spec page.reverse w).2.2.2
  · intro w pages
    exact pollMany_pairwise pages w

/-- C1 witness: a concrete poll at watermark 2 on a one-message page with
ts 3 emits that message, and the theorem yields its strict bound. -/
theorem c1_watermark_monotonicity_witness :
    ∃ t, (Msg.mk (some "3") none "x").ts = some t ∧ "2" < t :=
  c1_watermark_monotonicity.1 "2" [Msg.mk (some "3") none "x"]
    (Msg.mk (some "3") none "x") (by decide)

/-! ## Lemmas: pagination (claims C2, C3, C4) -/

/-- Sample channels for concrete instances. -/
def chA : Channel := ⟨"C1", "general", false⟩

def chB : Channel := ⟨"C2", "random", true⟩

lemma fetchGo_ok_none (batch : List Channel) (rs : List FetchResp)
    (cur : Option String) (acc : List Channel) :
    fetchGo (FetchResp.ok batch none :: rs) cur acc
      = ⟨acc ++ batch, [cur], [], FetchOutcome.completed⟩ := by
  simp [fetchGo]

lemma fetchGo_ok_empty (batch : List Channel) (rs : List FetchResp)
    (cur : Option String) (acc : List Channel) :
    fetchGo (FetchResp.ok batch (some "") :: rs) cur acc
      = ⟨acc ++ batch, [cur], [], FetchOutcome.completed⟩ := by
  simp [fetchGo]

lemma fetchGo_ok_cont (batch : List Channel) (c : String) (hc : ¬ c = "")
    (rs : List FetchResp) (cur : Option String) (acc : List Channel) :
    fetchGo (FetchResp.ok batch (some c) :: rs) cur acc
      = ⟨(fetchGo rs (some c) (acc ++ batch)).channels,
          cur :: (fetchGo rs (some c) (acc ++ batch)).calls,
          (fetchGo rs (some c) (acc ++ batch)).sleeps,
          (fetchGo rs (some c) (acc ++ batch)).outcome⟩ := by
  simp [fetchGo, if_neg hc]

lemma fetchGo_fail_rl (ra : Option Nat) (rs : List FetchResp)
    (cur : Option String) (acc : List Channel) :
    fetchGo (FetchResp.fail "ratelimited" ra :: rs) cur acc
      = ⟨(fetchGo rs cur acc).channels, cur :: (fetchGo rs cur acc).calls,
          (ra.getD 1) :: (fetchGo rs cur acc).sleeps, (fetchGo rs cur acc).outcome⟩ := by
  simp [fetchGo]

lemma fetchGo_fail_other (err : String) (he : ¬ err = "ratelimited") (ra : Option Nat)
    (rs : List FetchResp) (cur : Option String) (acc : List Channel) :
    fetchGo (FetchResp.fail err ra :: rs) cur acc
      = ⟨acc, [cur], [], FetchOutcome.failed⟩ := by
  simp [fetchGo, if_neg he]

lemma fetchGo_chained :
    ∀ (pages : List (List Channel × Option String)) (cur : Option String)
      (acc : List Channel), chainedPages pages = true →
      fetchGo (pages.map toFetchResp) cur acc
        = ⟨acc ++ (pages.map (fun p => p.1)).flatten,
            cur :: pages.dropLast.map (fun p => p.2), [], FetchOutcome.completed⟩ := by
  intro pages
  induction pages with
  | nil => intro cur acc h; simp [chainedPages] at h
  | cons p rest ih =>
    intro cur acc h
    cases rest with
    | nil =>
      have hl : goodLast p.2 = true := by simpa [chainedPages] using h
      cases hp : p.2 with
      | none =>
        simp only [List.map_cons, List.map_nil, toFetchResp, hp]
        rw [fetchGo_ok_none]
        simp
      | some c =>
        have hc : c = "" := by rw [hp] at hl; simpa [goodLast] using hl
        subst hc
        simp only [List.map_cons, List.map_nil, toFetchResp, hp]
        rw [fetchGo_ok_empty]
        simp
    | cons q rest2 =>
      have hm : goodMid p.2 = true ∧ chainedPages (q :: rest2) = true := by
        simpa [chainedPages, Bool.and_eq_true] using h
      cases hp : p.2 with
      | none => rw [hp] at hm; simp [goodMid] at hm
      | some c =>
        have hc : ¬ c = "" := by
          have := hm.1
          rw [hp] at this
          simpa [goodMid] using this
        have hrec := ih (some c) (acc ++ p.1) hm.2
        simp only [List.map_cons, toFetchResp] at hrec ⊢
        rw [hp, fetchGo_ok_cont p.1 c hc, hrec]
        simp [List.dropLast_cons_of_ne_nil, hp]

lemma getAllGo_chained :
    ∀ (pages : List (List Channel × Option String)) (acc : List Channel),
      chainedPages pages = true →
      getAllGo (pages.map toSimpleResp) acc
        = acc ++ (pages.map (fun p => p.1)).flatten := by
  intro pages
  induction pages with
  | nil => intro acc h; simp [chainedPages] at h
  | cons p rest ih =>
    intro acc h
    cases rest with
    | nil =>
      have hl : goodLast p.2 = true := by simpa [chainedPages] using h
      cases hp : p.2 with
      | none => simp [toSimpleResp, getAllGo, hp]
      | some c =>
        have hc : c = "" := by rw [hp] at hl; simpa [goodLast] using hl
        subst hc
        simp [toSimpleResp, getAllGo, hp]
    | cons q rest2 =>
      have hm : goodMid p.2 = true ∧ chainedPages (q :: rest2) = true := by
        simpa [chainedPages, Bool.and_eq_true] using h
      cases hp : p.2 with
      | none => rw [hp] at hm; simp [goodMid] at hm
      | some c =>
        have hc : ¬ c = "" := by
          have := hm.1
          rw [hp] at this
          simpa [goodMid] using this
        have hstep : getAllGo (List.map toSimpleResp (p :: q :: rest2)) acc
            = getAllGo (List.map toSimpleResp (q :: rest2)) (acc ++ p.1) := by
          simp only [List.map_cons, toSimpleResp, hp]
          conv =>
            lhs
            rw [getAllGo]
          simp [if_neg hc]
        rw [hstep, ih (acc ++ p.1) hm.2]
        simp

/-- C2: when the response stream consists of pages p1..pn whose cursors
chain (each page but the last returns a nonempty next cursor, the last an
empty or absent one), both pagination loops return exactly the
concatenation of the pages items in page order; fetch_channels_impl
moreover completes with no sleeps and calls the API first with cursor None
and then with each returned next cursor. -/
theorem c2_pagination_completeness
    (pages : List (List Channel × Option String)) (h : chainedPages pages = true) :
    (fetch_channels_impl (pages.map toFetchResp)).channels
        = (pages.map (fun p => p.1)).flatten
    ∧ (fetch_channels_impl (pages.map toFetchResp)).outcome = FetchOutcome.completed
    ∧ (fetch_channels_impl (pages.map toFetchResp)).sleeps = []
    ∧ (fetch_channels_impl (pages.map toFetchResp)).calls
        = none :: pages.dropLast.map (fun p => p.2)
    ∧ get_all_public_channels (pages.map toSimpleResp)
        = (pages.map (fun p => p.1)).flatten := by
  have h1 := fetchGo_chained pages none [] h
  have h2 := getAllGo_chained pages [] h
  unfold fetch_channels_impl get_all_public_channels
  rw [h1, h2]
  simp

/-- C2 witness: two chained pages, evaluated concretely. -/
theorem c2_pagination_completeness_witness :
    (fetch_channels_impl ([([chA], some "cur2"), ([chB], none)].map toFetchResp)).channels
        = (([([chA], some "cur2"), ([chB], none)]).map (fun p => p.1)).flatten
    ∧ (fetch_channels_impl ([([chA], some "cur2"), ([chB], none)].map toFetchResp)).outcome
        = FetchOutcome.completed
    ∧ (fetch_channels_impl ([([chA], some "cur2"), ([chB], none)].map toFetchResp)).sleeps = []
    ∧ (fetch_channels_impl ([([chA], some "cur2"), ([chB], none)].map toFetchResp)).calls
        = none :: ([([chA], some "cur2"), ([chB], none)]).dropLast.map (fun p => p.2)
    ∧ get_all_public_channels ([([chA], some "cur2"), ([chB], none)].map toSimpleResp)
        = (([([chA], some "cur2"), ([chB], none)]).map (fun p => p.1)).flatten :=
  c2_pagination_completeness [([chA], some "cur2"), ([chB], none)] (by decide)

/-- The cursor in hand after consuming a run of middle pages. -/
def endCursor (cur : Option String) : List (List Channel × Option String) → Option String
  | [] => cur
  | p :: rest => endCursor p.2 rest

/-- The cursors passed to the calls consuming a run of middle pages. -/
def midCalls (cur : Option String) : List (List Channel × Option String) → List (Option String)
  | [] => []
  | p :: rest => cur :: midCalls p.2 rest

lemma fetchGo_mids :
    ∀ (pages : List (List Channel × Option String)) (rest : List FetchResp)
      (cur : Option String) (acc : List Channel),
      pages.all (fun p => goodMid p.2) = true →
      fetchGo (pages.map toFetchResp ++ rest) cur acc
        = ⟨(fetchGo rest (endCursor cur pages)
              (acc ++ (pages.map (fun p => p.1)).flatten)).channels,
            midCalls cur pages
              ++ (fetchGo rest (endCursor cur pages)
                    (acc ++ (pages.map (fun p => p.1)).flatten)).calls,
            (fetchGo rest (endCursor cur pages)
              (acc ++ (pages.map (fun p => p.1)).flatten)).sleeps,
            (fetchGo rest (endCursor cur pages)
              (acc ++ (pages.map (fun p => p.1)).flatten)).outcome⟩ := by
  intro pages
  induction pages with
  | nil =>
    intro rest cur acc _
    simp [endCursor, midCalls]
  | cons p ps ih =>
    intro rest cur acc h
    have hp1 : goodMid p.2 = true := by
      have := (List.all_eq_true.mp h) p (List.mem_cons_self p ps)
      simpa using this
    have hps : ps.all (fun q => goodMid q.2) = true := by
      refine List.all_eq_true.mpr ?_
      intro q hq
      exact (List.all_eq_true.mp h) q (List.mem_cons_of_mem p hq)
    cases hp : p.2 with
    | none => rw [hp] at hp1; simp [goodMid] at hp1
    | some c =>
      have hc : ¬ c = "" := by
        rw [hp] at hp1
        simpa [goodMid] using hp1
      have hrec := ih rest (some c) (acc ++ p.1) hps
      simp only [List.map_cons, List.cons_append, toFetchResp] at hrec ⊢
      rw [hp, fetchGo_ok_cont p.1 c hc, hrec]
      simp [endCursor, midCalls, hp]

/-- C3 counterexample: a fetch pass that gets one ok page with a
continuation cursor and then a non-rate-limit error persists exactly the
partial page it had accumulated; the persisted snapshot is nonempty and
comes from a failed (mid-pagination) pass, contradicting the claim that
such a snapshot is never persisted. -/
theorem c3_partial_persisted_counterexample :
    persistedChannels
        [FetchResp.ok [chA] (some "cursor2"), FetchResp.fail "internal_error" none]
      = [chA]
    ∧ (fetch_channels_impl
        [FetchResp.ok [chA] (some "cursor2"), FetchResp.fail "internal_error" none]).outcome
      = FetchOutcome.failed
    ∧ persistedChannels
        [FetchResp.ok [chA] (some "cursor2"), FetchResp.fail "internal_error" none]
      ≠ [] := by
  refine ⟨by decide, by decide, by decide⟩

/-- C3 amended: every fetch pass persists exactly the accumulator at loop
exit: after a run of chained middle pages followed by a non-rate-limit
error response, the persisted snapshot is the concatenation of the pages
received before the error (a partial snapshot), and the pass is marked
failed. -/
theorem c3_persisted_is_accumulated
    (pages : List (List Channel × Option String)) (err : String) (ra : Option Nat)
    (hmid : pages.all (fun p => goodMid p.2) = true) (herr : ¬ err = "ratelimited") :
    persistedChannels (pages.map toFetchResp ++ [FetchResp.fail err ra])
        = (pages.map (fun p => p.1)).flatten
    ∧ (fetch_channels_impl (pages.map toFetchResp ++ [FetchResp.fail err ra])).outcome
        = FetchOutcome.failed := by
  have h := fetchGo_mids pages [FetchResp.fail err ra] none [] hmid
  unfold persistedChannels fetch_channels_impl
  rw [h, fetchGo_fail_other err herr]
  simp

/-- C3 amended witness: one middle page then an error persists that page. -/
theorem c3_persisted_is_accumulated_witness :
    persistedChannels ([([chA], some "cur2")].map toFetchResp
          ++ [FetchResp.fail "internal_error" none])
        = (([([chA], some "cur2")]).map (fun p => p.1)).flatten
    ∧ (fetch_channels_impl ([([chA], some "cur2")].map toFetchResp
          ++ [FetchResp.fail "internal_error" none])).outcome
        = FetchOutcome.failed :=
  c3_persisted_is_accumulated [([chA], some "cur2")] "internal_error" none
    (by decide) (by decide)

lemma fetchGo_extends :
    ∀ (rs : List FetchResp) (cur : Option String) (acc : List Channel),
      ∃ t, (fetchGo rs cur acc).channels = acc ++ t := by
  intro rs
  induction rs with
  | nil => intro cur acc; exact ⟨[], by simp [fetchGo]⟩
  | cons r rest ih =>
    intro cur acc
    cases r with
    | ok batch next =>
      cases next with
      | none => exact ⟨batch, by rw [fetchGo_ok_none]⟩
      | some c =>
        by_cases hc : c = ""
        · subst hc
          exact ⟨batch, by rw [fetchGo_ok_empty]⟩
        · obtain ⟨t, ht⟩ := ih (some c) (acc ++ batch)
          refine ⟨batch ++ t, ?_⟩
          rw [fetchGo_ok_cont batch c hc]
          simp only []
          rw [ht]
          simp
    | fail err ra =>
      by_cases he : err = "ratelimited"
      · subst he
        obtain ⟨t, ht⟩ := ih cur acc
        refine ⟨t, ?_⟩
        rw [fetchGo_fail_rl]
        exact ht
      · exact ⟨[], by rw [fetchGo_fail_other err he]; simp⟩
    | exn msg =>
      by_cases he : rateLimitText msg = true
      · obtain ⟨t, ht⟩ := ih cur acc
        refine ⟨t, ?_⟩
        simpa [fetchGo, he] using ht
      · refine ⟨[], ?_⟩
        simp only [fetchGo]
        rw [if_neg (by simpa using he)]
        simp

lemma fetchGo_calls_head :
    ∀ (rs : List FetchResp) (cur : Option String) (acc : List Channel),
      rs ≠ [] → (fetchGo rs cur acc).calls.head? = some cur := by
  intro rs cur acc h
  cases rs with
  | nil => exact absurd rfl h
  | cons r rest =>
    cases r with
    | ok batch next =>
      cases next with
      | none => rw [fetchGo_ok_none]; rfl
      | some c =>
        by_cases hc : c = ""
        · subst hc; rw [fetchGo_ok_empty]; rfl
        · rw [fetchGo_ok_cont batch c hc]; rfl
    | fail err ra =>
      by_cases he : err = "ratelimited"
      · subst he; rw [fetchGo_fail_rl]; rfl
      · rw [fetchGo_fail_other err he]; rfl
    | exn msg =>
      by_cases he : rateLimitText msg = true
      · simp [fetchGo, he]
      · simp only [fetchGo]
        rw [if_neg (by simpa using he)]
        rfl

/-- C4: a rate-limited ok-false response makes the loop sleep the
Retry-After duration from the response (1 when the header is absent,
through getD) and continue with exactly the same cursor: the run with the
rate-limit response prepended produces the same channels and outcome as the
run without it, records the extra sleep, makes the rate-limited call and
the retry call with the same cursor, and the items accumulated before the
rate limit are kept as a prefix of the final result. -/
theorem c4_rate_limit_retry (ra : Option Nat) (rs : List FetchResp)
    (cur : Option String) (acc : List Channel) :
    (fetchGo (FetchResp.fail "ratelimited" ra :: rs) cur acc).channels
        = (fetchGo rs cur acc).channels
    ∧ (fetchGo (FetchResp.fail "ratelimited" ra :: rs) cur acc).outcome
        = (fetchGo rs cur acc).outcome
    ∧ (fetchGo (FetchResp.fail "ratelimited" ra :: rs) cur acc).sleeps
        = (ra.getD 1) :: (fetchGo rs cur acc).sleeps
    ∧ (ra = none →
        (fetchGo (FetchResp.fail "ratelimited" ra :: rs) cur acc).sleeps
          = 1 :: (fetchGo rs cur acc).sleeps)
    ∧ (fetchGo (FetchResp.fail "ratelimited" ra :: rs) cur acc).calls
        = cur :: (fetchGo rs cur acc).calls
    ∧ (rs ≠ [] → (fetchGo rs cur acc).calls.head? = some cur)
    ∧ (∃ t, (fetchGo rs cur acc).channels = acc ++ t) := by
  refine ⟨by rw [fetchGo_fail_rl], by rw [fetchGo_fail_rl], by rw [fetchGo_fail_rl], ?_,
    by rw [fetchGo_fail_rl], fetchGo_calls_head rs cur acc, fetchGo_extends rs cur acc⟩
  intro hra
  subst hra
  rw [fetchGo_fail_rl]
  rfl

/-- C4 witness: concrete rate-limited response with no Retry-After header
before a final page, at a nonempty accumulator: the default sleep is 1, the
retry call reuses the cursor, and the accumulator survives. -/
theorem c4_rate_limit_retry_witness :
    (fetchGo (FetchResp.fail "ratelimited" none :: [FetchResp.ok [chA] none])
        (some "k") [chB]).sleeps
      = 1 :: (fetchGo [FetchResp.ok [chA] none] (some "k") [chB]).sleeps
    ∧ (fetchGo [FetchResp.ok [chA] none] (some "k") [chB]).calls.head? = some (some "k")
    ∧ ∃ t, (fetchGo [FetchResp.ok [chA] none] (some "k") [chB]).channels = [chB] ++ t :=
  ⟨(c4_rate_limit_retry none [FetchResp.ok [chA] none] (some "k") [chB]).2.2.2.1 rfl,
   (c4_rate_limit_retry none [FetchResp.ok [chA] none] (some "k") [chB]).2.2.2.2.2.1
     (by decide),
   (c4_rate_limit_retry none [FetchResp.ok [chA] none] (some "k") [chB]).2.2.2.2.2.2⟩

/-! ## Lemmas: send_message (claims C5, C10) -/

lemma sendPost_posted (api : SendApi) (j : Bool) (n m : String) :
    (sendPost api j n m).posted = some m := by
  unfold sendPost
  split
  · rfl
  · split <;> rfl

lemma sendPost_joinCalled (api : SendApi) (j : Bool) (n m : String) :
    (sendPost api j n m).joinCalled = j := by
  unfold sendPost
  split
  · rfl
  · split <;> rfl

/-- C5 counterexample: with the bot already a member and the post
succeeding, send_message passes the operator text to chat_postMessage
verbatim; the outbound translation of that text through format_user_input
and resolve_mentions_in_message (with alice cached as U1) is the wire text
with the mention resolved, which differs, so the posted text is not the
outbound wire translation of the input. -/
theorem c5_posted_raw_counterexample :
    (send_message ⟨Except.ok true, Except.ok ⟨true, none⟩, Except.ok ⟨true, none⟩⟩
        true "general" "@alice hi").posted = some "@alice hi"
    ∧ resolve_mentions_in_message (format_user_input "@alice hi") [("U1", "alice")]
        = "<@U1> hi"
    ∧ some ("@alice hi" : String)
        ≠ some (resolve_mentions_in_message (format_user_input "@alice hi")
            [("U1", "alice")]) :=
  ⟨by decide, by decide, by decide⟩

/-- C5 amended: send_message posts the operator text unchanged whenever it
posts at all; no outbound translation is applied to it (the translation
functions exist in formatting.py but are not invoked by send_message). -/
theorem c5_send_posts_verbatim (api : SendApi) (hasChannel : Bool) (name msg : String) :
    (send_message api hasChannel name msg).posted = none
    ∨ (send_message api hasChannel name msg).posted = some msg := by
  unfold send_message
  split
  · exact Or.inl rfl
  · split
    · exact Or.inl rfl
    · split
      · split
        · exact Or.inl rfl
        · split
          · exact Or.inl rfl
          · exact Or.inr (sendPost_posted api true name msg)
      · exact Or.inr (sendPost_posted api false name msg)

/-- C10: when the membership check reports not-a-member, send_message calls
conversations_join; a failed or raising join yields no post and an error
status; a successful join leads to the post being made with the message;
and in general a post happens only when the bot was already a member or the
join returned ok. -/
theorem c10_send_joins_before_post (api : SendApi) (name msg : String)
    (hnm : api.conv_info = Except.ok false) :
    (send_message api true name msg).joinCalled = true
    ∧ (∀ e, api.conv_join = Except.error e →
        (send_message api true name msg).posted = none
        ∧ (send_message api true name msg).statusKind = "error")
    ∧ (∀ jr, api.conv_join = Except.ok jr → jr.ok = false →
        (send_message api true name msg).posted = none
        ∧ (send_message api true name msg).statusKind = "error")
    ∧ (∀ jr, api.conv_join = Except.ok jr → jr.ok = true →
        (send_message api true name msg).posted = some msg)
    ∧ (∀ (api2 : SendApi) (hc2 : Bool) (n2 m2 : String),
        (send_message api2 hc2 n2 m2).posted.isSome = true →
          api2.conv_info = Except.ok true
          ∨ (api2.conv_info = Except.ok false
              ∧ ∃ jr, api2.conv_join = Except.ok jr ∧ jr.ok = true)) := by
  refine ⟨?_, ?_, ?_, ?_, ?_⟩
  · unfold send_message
    cases hj : api.conv_join with
    | error e => simp [hnm, hj]
    | ok jr =>
      cases hjr : jr.ok with
      | false => simp [hnm, hj, hjr]
      | true => simp [hnm, hj, hjr, sendPost_joinCalled]
  · intro e he
    unfold send_message
    simp only [hnm, he]
    exact ⟨rfl, rfl⟩
  · intro jr hj hjf
    unfold send_message
    simp only [hnm, hj, hjf]
    exact ⟨rfl, rfl⟩
  · intro jr hj hjt
    unfold send_message
    simp only [hnm, hj, hjt]
    exact sendPost_posted api true name msg
  · intro api2 hc2 n2 m2 hpost
    unfold send_message at hpost
    by_cases hch : hc2 = false
    · rw [if_pos hch] at hpost
      simp at hpost
    · rw [if_neg hch] at hpost
      cases hinfo : api2.conv_info with
      | error e =>
        simp only [hinfo] at hpost
        simp at hpost
      | ok isMember =>
        simp only [hinfo] at hpost
        cases isMember with
        | true => exact Or.inl rfl
        | false =>
          cases hj : api2.conv_join with
          | error e =>
            simp only [hj] at hpost
            simp at hpost
          | ok jr =>
            simp only [hj] at hpost
            cases hjr : jr.ok with
            | false =>
              simp only [hjr] at hpost
              simp at hpost
            | true =>
              exact Or.inr ⟨rfl, jr, rfl, hjr⟩

/-- C10 witness: not a member, join succeeds, post succeeds. -/
theorem c10_send_joins_before_post_witness :
    (send_message ⟨Except.ok false, Except.ok ⟨true, none⟩, Except.ok ⟨true, none⟩⟩
        true "general" "hi").joinCalled = true
    ∧ (send_message ⟨Except.ok false, Except.ok ⟨true, none⟩, Except.ok ⟨true, none⟩⟩
        true "general" "hi").posted = some "hi" :=
  ⟨(c10_send_joins_before_post
      ⟨Except.ok false, Except.ok ⟨true, none⟩, Except.ok ⟨true, none⟩⟩
      "general" "hi" rfl).1,
   (c10_send_joins_before_post
      ⟨Except.ok false, Except.ok ⟨true, none⟩, Except.ok ⟨true, none⟩⟩
      "general" "hi" rfl).2.2.2.1 ⟨true, none⟩ rfl rfl⟩

/-! ## Lemmas: resolve_user_name (claim C8) -/

/-- Python truthiness of a string-or-missing value. -/
def pyTruthy (o : Option String) : Bool :=
  match o with
  | some s => s ≠ ""
  | none => false

/-- C8 counterexample: users_info returns a user whose real_name field is
present but empty and whose short name is bob; the code returns bob (the
Python or-chain skips falsy values), while the first present field in the
specified order is the empty real_name, so resolve does not return the
first present field. -/
theorem c8_first_present_counterexample :
    (resolve_user_name [] true
        (UsersInfoResp.ok ⟨some "", none, none, some "bob"⟩) "U1").1 = "bob"
    ∧ specFirstPresent ⟨some "", none, none, some "bob"⟩ "U1" = ""
    ∧ ("bob" : String) ≠ "" :=
  ⟨by decide, by decide, by decide⟩

/-- C8 amended: for an uncached id, resolve returns the first present and
nonempty field in the order real name, profile real name, profile display
name, short name, else the id; it returns the raw id on an ok-false
response or an exception; and after any resolve, a second resolve of the
same id returns the same value from the cache without calling the API and
without changing the cache. -/
theorem c8_resolve_order_and_cache (cache : List (String × String)) (uid : String)
    (huncached : lookupCache cache uid = none) :
    (∀ u r, u.real_name = some r → ¬ r = "" →
        (resolve_user_name cache true (UsersInfoResp.ok u) uid).1 = r)
    ∧ (∀ u r, pyTruthy u.real_name = false → u.profile_real_name = some r → ¬ r = "" →
        (resolve_user_name cache true (UsersInfoResp.ok u) uid).1 = r)
    ∧ (∀ u r, pyTruthy u.real_name = false → pyTruthy u.profile_real_name = false →
        u.profile_display_name = some r → ¬ r = "" →
        (resolve_user_name cache true (UsersInfoResp.ok u) uid).1 = r)
    ∧ (∀ u r, pyTruthy u.real_name = false → pyTruthy u.profile_real_name = false →
        pyTruthy u.profile_display_name = false → u.name = some r → ¬ r = "" →
        (resolve_user_name cache true (UsersInfoResp.ok u) uid).1 = r)
    ∧ (∀ u, pyTruthy u.real_name = false → pyTruthy u.profile_real_name = false →
        pyTruthy u.profile_display_name = false → pyTruthy u.name = false →
        (resolve_user_name cache true (UsersInfoResp.ok u) uid).1 = uid)
    ∧ ((resolve_user_name cache true UsersInfoResp.notOk uid).1 = uid)
    ∧ (∀ e, (resolve_user_name cache true (UsersInfoResp.exn e) uid).1 = uid)
    ∧ (∀ (cache2 : List (String × String)) (hasApp1 : Bool) (api : UsersInfoResp)
          (hasApp2 : Bool) (api2 : UsersInfoResp),
        resolve_user_name (resolve_user_name cache2 hasApp1 api uid).2.1 hasApp2 api2 uid
          = ((resolve_user_name cache2 hasApp1 api uid).1,
              (resolve_user_name cache2 hasApp1 api uid).2.1, false)) := by
  have hfalse : ∀ o : Option String, pyTruthy o = false →
      ∀ k, orElseTruthy o k = k := by
    intro o ho k
    cases o with
    | none => rfl
    | some s =>
      have hs : s = "" := by simpa [pyTruthy] using ho
      subst hs
      simp [orElseTruthy]
  have hsome : ∀ (r : String), ¬ r = "" → ∀ k, orElseTruthy (some r) k = r := by
    intro r hr k
    simp [orElseTruthy, hr]
  have hok : ∀ u, (resolve_user_name cache true (UsersInfoResp.ok u) uid).1
      = pickDisplayName u uid := by
    intro u
    unfold resolve_user_name
    rw [huncached]
    rfl
  refine ⟨?_, ?_, ?_, ?_, ?_, ?_, ?_, ?_⟩
  · intro u r h1 h2
    rw [hok u]
    unfold pickDisplayName
    rw [h1, hsome r h2]
  · intro u r h0 h1 h2
    rw [hok u]
    unfold pickDisplayName
    rw [hfalse _ h0, h1, hsome r h2]
  · intro u r h0 h0b h1 h2
    rw [hok u]
    unfold pickDisplayName
    rw [hfalse _ h0, hfalse _ h0b, h1, hsome r h2]
  · intro u r h0 h0b h0c h1 h2
    rw [hok u]
    unfold pickDisplayName
    rw [hfalse _ h0, hfalse _ h0b, hfalse _ h0c, h1, hsome r h2]
  · intro u h0 h0b h0c h0d
    rw [hok u]
    unfold pickDisplayName
    rw [hfalse _ h0, hfalse _ h0b, hfalse _ h0c, hfalse _ h0d]
  · unfold resolve_user_name
    rw [huncached]
    rfl
  · intro e
    unfold resolve_user_name
    rw [huncached]
    rfl
  · intro cache2 hasApp1 api hasApp2 api2
    have hcached : ∀ (c : List (String × String)) (v : String),
        lookupCache c uid = some v →
        resolve_user_name c hasApp2 api2 uid = (v, c, false) := by
      intro c v hv
      unfold resolve_user_name
      rw [hv]
    have hinsert : ∀ (c : List (String × String)) (v : String),
        lookupCache ((uid, v) :: c) uid = some v := by
      intro c v
      simp [lookupCache, List.find?]
    cases hl : lookupCache cache2 uid with
    | some v =>
      have h1 : resolve_user_name cache2 hasApp1 api uid = (v, cache2, false) := by
        unfold resolve_user_name
        rw [hl]
      rw [h1]
      exact hcached cache2 v hl
    | none =>
      cases hha : hasApp1 with
      | false =>
        have h1 : resolve_user_name cache2 false api uid
            = (uid, (uid, uid) :: cache2, false) := by
          unfold resolve_user_name
          rw [hl]
          rfl
        rw [h1]
        exact hcached _ uid (hinsert cache2 uid)
      | true =>
        cases api with
        | ok u =>
          have h1 : resolve_user_name cache2 true (UsersInfoResp.ok u) uid
              = (pickDisplayName u uid, (uid, pickDisplayName u uid) :: cache2, true) := by
            unfold resolve_user_name
            rw [hl]
            rfl
          rw [h1]
          exact hcached _ _ (hinsert cache2 (pickDisplayName u uid))
        | notOk =>
          have h1 : resolve_user_name cache2 true UsersInfoResp.notOk uid
              = (uid, (uid, uid) :: cache2, true) := by
            unfold resolve_user_name
            rw [hl]
            rfl
          rw [h1]
          exact hcached _ uid (hinsert cache2 uid)
        | exn e =>
          have h1 : resolve_user_name cache2 true (UsersInfoResp.exn e) uid
              = (uid, (uid, uid) :: cache2, true) := by
            unfold resolve_user_name
            rw [hl]
            rfl
          rw [h1]
          exact hcached _ uid (hinsert cache2 uid)

/-- C8 amended witness: a fresh resolve of U1 with real name Bob. -/
theorem c8_resolve_order_and_cache_witness :
    (resolve_user_name [] true
        (UsersInfoResp.ok ⟨some "Bob", none, none, none⟩) "U1").1 = "Bob" :=
  (c8_resolve_order_and_cache [] "U1" (by decide)).1
    ⟨some "Bob", none, none, none⟩ "Bob" rfl (by decide)

/-! ## Lemmas: inbound translation (claims C6, C7, C9) -/

/-- Characters that no inbound rule can act on: not an angle bracket and
not an emphasis delimiter. -/
def plainChar (c : Char) : Bool :=
  decide (¬ (c = '<' ∨ c = '>' ∨ c = '*' ∨ c = '_' ∨ c = '~'))

lemma plain_spec {c : Char} (h : plainChar c = true) :
    ¬ c = '<' ∧ ¬ c = '>' ∧ ¬ c = '*' ∧ ¬ c = '_' ∧ ¬ c = '~' := by
  simp only [plainChar, decide_eq_true_eq, not_or] at h
  exact h

lemma upperAlnum_ne {c : Char} (h : isUpperAlnum c = true) (d : Char)
    (hd : isUpperAlnum d = false) : ¬ c = d := by
  intro e
  subst e
  rw [h] at hd
  exact Bool.noConfusion hd

lemma upperAlnum_plain {c : Char} (h : isUpperAlnum c = true) : plainChar c = true := by
  simp only [plainChar, decide_eq_true_eq, not_or]
  exact ⟨upperAlnum_ne h '<' (by decide), upperAlnum_ne h '>' (by decide),
    upperAlnum_ne h '*' (by decide), upperAlnum_ne h '_' (by decide),
    upperAlnum_ne h '~' (by decide)⟩

lemma breakAt_append (p : Char → Bool) (a : List Char) (h : Char) (b : List Char)
    (hA : ∀ c ∈ a, p c = false) (hh : p h = true) :
    breakAt p (a ++ h :: b) = some (a, h, b) := by
  induction a with
  | nil => simp [breakAt, hh]
  | cons c cs ih =>
    have hc : p c = false := hA c (List.mem_cons_self c cs)
    have ih2 := ih (fun d hd => hA d (List.mem_cons_of_mem c hd))
    simp [breakAt, hc, ih2]

lemma spanP_append (p : Char → Bool) (a b : List Char)
    (hA : ∀ c ∈ a, p c = true) (hb : ∀ c, b.head? = some c → p c = false) :
    spanP p (a ++ b) = (a, b) := by
  induction a with
  | nil =>
    cases b with
    | nil => rfl
    | cons c cs =>
      have hc : p c = false := hb c rfl
      simp [spanP, hc]
  | cons c cs ih =>
    have hc : p c = true := hA c (List.mem_cons_self c cs)
    have ih2 := ih (fun d hd => hA d (List.mem_cons_of_mem c hd))
    simp [spanP, hc, ih2]

lemma subGen_nil (m : List Char → Option (List Char × List Char)) (f : Nat) :
    subGen m f [] = [] := by
  cases f <;> rfl

/-- A matcher that matches the whole input at position zero makes the pass
output exactly the replacement. -/
lemma runSub_full (m : List Char → Option (List Char × List Char)) (l r : List Char)
    (h : m l = some (r, [])) (hne : l ≠ []) : runSub m l = r := by
  cases l with
  | nil => exact absurd rfl hne
  | cons c cs =>
    show subGen m (c :: cs).length (c :: cs) = r
    rw [List.length_cons]
    simp only [subGen, h, subGen_nil]
    simp

/-- A matcher that matches at no position leaves the text unchanged. -/
lemma subGen_id (m : List Char → Option (List Char × List Char)) :
    ∀ (f : Nat) (l : List Char),
      (∀ c cs, (c :: cs) <:+ l → m (c :: cs) = none) → subGen m f l = l := by
  intro f
  induction f with
  | zero => intro l _; rfl
  | succ k ih =>
    intro l h
    cases l with
    | nil => rfl
    | cons c cs =>
      have hc : m (c :: cs) = none := h c cs (List.suffix_refl _)
      have hrest := ih cs (fun d ds hs => h d ds (hs.trans (List.suffix_cons c cs)))
      simp only [subGen, hc, hrest]

lemma runSub_id (m : List Char → Option (List Char × List Char)) (l : List Char)
    (h : ∀ c cs, (c :: cs) <:+ l → m (c :: cs) = none) : runSub m l = l :=
  subGen_id m l.length l h

lemma mem_of_suffix_head {c : Char} {cs l : List Char} (h : (c :: cs) <:+ l) : c ∈ l := by
  obtain ⟨pre, hpre⟩ := h
  subst hpre
  exact List.mem_append.mpr (Or.inr (List.mem_cons_self c cs))

/-- A matcher that only fires on its trigger character leaves texts without
that character unchanged. -/
lemma runSub_id_of_trigger (m : List Char → Option (List Char × List Char)) (t : Char)
    (hm : ∀ c cs, ¬ c = t → m (c :: cs) = none) (l : List Char) (hl : t ∉ l) :
    runSub m l = l := by
  apply runSub_id
  intro c cs hsuf
  refine hm c cs ?_
  intro e
  subst e
  exact hl (mem_of_suffix_head hsuf)

/-- A matcher that only fires on its trigger character, with the trigger
occurring only at the head where it fails anyway, leaves the text
unchanged. -/
lemma runSub_id_of_head (m : List Char → Option (List Char × List Char)) (t : Char)
    (hm : ∀ c cs, ¬ c = t → m (c :: cs) = none) (l0 : List Char)
    (hhead : m (t :: l0) = none) (hl0 : t ∉ l0) :
    runSub m (t :: l0) = t :: l0 := by
  apply runSub_id
  intro c cs hsuf
  by_cases hct : c = t
  · subst hct
    have hwhole : c :: cs = c :: l0 := by
      obtain ⟨pre, hpre⟩ := hsuf
      cases pre with
      | nil => simpa using hpre
      | cons x xs =>
        have hx : x = c ∧ xs ++ c :: cs = l0 := by
          constructor
          · have := congrArg (fun l => l.head?) hpre
            simpa using this
          · have := congrArg List.tail hpre
            simpa using this
        exact absurd (hx.2 ▸ List.mem_append.mpr
          (Or.inr (List.mem_cons_self c cs))) hl0
    rw [hwhole]
    exact hhead
  · exact hm c cs hct

lemma rule1_none {c : Char} {cs : List Char} (h : ¬ c = '<') : rule1 (c :: cs) = none := by
  simp [rule1, h]

lemma rule2_none {c : Char} {cs : List Char} (h : ¬ c = '<') : rule2 (c :: cs) = none := by
  simp [rule2, h]

lemma rule3_none (uc : String → Option String) {c : Char} {cs : List Char}
    (h : ¬ c = '<') : rule3 uc (c :: cs) = none := by
  simp [rule3, h]

lemma rule4_none (cc : String → Option String) {c : Char} {cs : List Char}
    (h : ¬ c = '<') : rule4 cc (c :: cs) = none := by
  simp [rule4, h]

lemma ruleEmph_none (delim : Char) (tO tC : List Char) {c : Char} {cs : List Char}
    (h : ¬ c = delim) : ruleEmph delim tO tC (c :: cs) = none := by
  simp [ruleEmph, h]

lemma plain_not_mem (l : List Char) (hp : ∀ c ∈ l, plainChar c = true) (t : Char)
    (ht : plainChar t = false) : t ∉ l := by
  intro hm
  rw [hp t hm] at ht
  exact Bool.noConfusion ht

lemma all_plain_append {l1 l2 : List Char} (h1 : ∀ c ∈ l1, plainChar c = true)
    (h2 : ∀ c ∈ l2, plainChar c = true) : ∀ c ∈ l1 ++ l2, plainChar c = true := by
  intro c hc
  rcases List.mem_append.mp hc with h | h
  · exact h1 c h
  · exact h2 c h

lemma linkRepl_plain (idL labL : List Char)
    (hid : ∀ d ∈ idL, isUpperAlnum d = true) (hlab : ∀ d ∈ labL, plainChar d = true) :
    ∀ c ∈ linkRepl ('#' :: idL) labL, plainChar c = true := by
  have hhash : ∀ c ∈ ('#' :: idL), plainChar c = true := by
    intro c hc
    rcases List.mem_cons.mp hc with rfl | hc2
    · decide
    · exact upperAlnum_plain (hid c hc2)
  unfold linkRepl
  exact all_plain_append (all_plain_append (all_plain_append
    (all_plain_append (by decide) hhash) (by decide)) hlab) (by decide)

lemma rule1_channel (idL labL : List Char)
    (hid : idL ≠ [] ∧ ∀ c ∈ idL, isUpperAlnum c = true)
    (hlab : labL ≠ [] ∧ ∀ c ∈ labL, plainChar c = true) :
    rule1 ('<' :: '#' :: (idL ++ '|' :: (labL ++ ['>'])))
      = some (linkRepl ('#' :: idL) labL, []) := by
  have h1 : breakAt (fun d => d = '|' || d = '>') ('#' :: (idL ++ '|' :: (labL ++ ['>'])))
      = some ('#' :: idL, '|', labL ++ ['>']) := by
    have := breakAt_append (fun d => d = '|' || d = '>') ('#' :: idL) '|' (labL ++ ['>'])
      (by
        intro c hc
        rcases List.mem_cons.mp hc with rfl | hc2
        · decide
        · have h1 := upperAlnum_ne (hid.2 c hc2) '|' (by decide)
          have h2 := upperAlnum_ne (hid.2 c hc2) '>' (by decide)
          simp [h1, h2])
      (by decide)
    simpa using this
  have h2 : breakAt (fun d => d = '>') (labL ++ '>' :: []) = some (labL, '>', []) := by
    refine breakAt_append (fun d => d = '>') labL '>' [] ?_ (by decide)
    intro c hc
    have := (plain_spec (hlab.2 c hc)).2.1
    simp [this]
  simp [rule1, h1, h2, hlab.1]

lemma rule1_channel_empty (idL : List Char)
    (hid : idL ≠ [] ∧ ∀ c ∈ idL, isUpperAlnum c = true) :
    rule1 ('<' :: '#' :: (idL ++ '|' :: '>' :: [])) = none := by
  have h1 : breakAt (fun d => d = '|' || d = '>') ('#' :: (idL ++ '|' :: '>' :: []))
      = some ('#' :: idL, '|', '>' :: []) := by
    have := breakAt_append (fun d => d = '|' || d = '>') ('#' :: idL) '|' ('>' :: [])
      (by
        intro c hc
        rcases List.mem_cons.mp hc with rfl | hc2
        · decide
        · have h1 := upperAlnum_ne (hid.2 c hc2) '|' (by decide)
          have h2 := upperAlnum_ne (hid.2 c hc2) '>' (by decide)
          simp [h1, h2])
      (by decide)
    simpa using this
  have h2 : breakAt (fun d => d = '>') ('>' :: []) = some ([], '>', []) := by
    simp [breakAt]
  simp [rule1, h1, h2]

lemma isPrefixOf_head_ne {a b : Char} (h : ¬ a = b) (as bs : List Char) :
    List.isPrefixOf (a :: as) (b :: bs) = false := by
  simp [List.isPrefixOf, h]

lemma stripScheme_not_h {c : Char} (cs : List Char) (h : ¬ c = 'h') :
    stripScheme (c :: cs) = none := by
  have h1 : List.isPrefixOf ("https://".data) (c :: cs) = false := by
    rw [show "https://".data = 'h' :: "ttps://".data from rfl]
    exact isPrefixOf_head_ne (fun e => h e.symm) _ _
  have h2 : List.isPrefixOf ("http://".data) (c :: cs) = false := by
    rw [show "http://".data = 'h' :: "ttp://".data from rfl]
    exact isPrefixOf_head_ne (fun e => h e.symm) _ _
  simp [stripScheme, h1, h2]

lemma rule2_hash (r : List Char) : rule2 ('<' :: '#' :: r) = none := by
  have h := stripScheme_not_h (c := '#') r (by decide)
  simp [rule2, h]
lemma rule3_hash (uc : String → Option String) (r : List Char) :
    rule3 uc ('<' :: '#' :: r) = none := by
  simp [rule3]

lemma rule4_channel_empty (cc : String → Option String) (idL : List Char)
    (hid : idL ≠ [] ∧ ∀ c ∈ idL, isUpperAlnum c = true) :
    rule4 cc ('<' :: '#' :: (idL ++ '|' :: '>' :: []))
      = some ('#' :: ((cc (String.mk idL)).getD (String.mk idL)).data, []) := by
  have hspan : spanP isUpperAlnum (idL ++ '|' :: '>' :: []) = (idL, '|' :: '>' :: []) := by
    refine spanP_append isUpperAlnum idL ('|' :: '>' :: []) hid.2 ?_
    intro c hc
    have : c = '|' := by simpa using hc.symm
    subst this
    decide
  have hbreak : breakAt (fun d => d = '>') ('>' :: []) = some ([], '>', []) := by
    simp [breakAt]
  simp [rule4, hspan, hbreak, hid.1]

lemma parseCore_channel_label (uc cc : String → Option String) (idL labL : List Char)
    (hid : idL ≠ [] ∧ ∀ c ∈ idL, isUpperAlnum c = true)
    (hlab : labL ≠ [] ∧ ∀ c ∈ labL, plainChar c = true) :
    parseCore uc cc ('<' :: '#' :: (idL ++ '|' :: (labL ++ ['>'])))
      = linkRepl ('#' :: idL) labL := by
  have hplain := linkRepl_plain idL labL hid.2 hlab.2
  have hno : ∀ t : Char, plainChar t = false → t ∉ linkRepl ('#' :: idL) labL :=
    fun t ht => plain_not_mem _ hplain t ht
  have hs1 := runSub_full rule1 ('<' :: '#' :: (idL ++ '|' :: (labL ++ ['>'])))
    (linkRepl ('#' :: idL) labL) (rule1_channel idL labL hid hlab) (by simp)
  have hs2 := runSub_id_of_trigger rule2 '<' (fun c cs h => rule2_none h)
    (linkRepl ('#' :: idL) labL) (hno '<' (by decide))
  have hs3 := runSub_id_of_trigger (rule3 uc) '<' (fun c cs h => rule3_none uc h)
    (linkRepl ('#' :: idL) labL) (hno '<' (by decide))
  have hs4 := runSub_id_of_trigger (rule4 cc) '<' (fun c cs h => rule4_none cc h)
    (linkRepl ('#' :: idL) labL) (hno '<' (by decide))
  have hs5 := runSub_id_of_trigger (ruleEmph '*' "[bold]".data "[/bold]".data) '*'
    (fun c cs h => ruleEmph_none '*' _ _ h)
    (linkRepl ('#' :: idL) labL) (hno '*' (by decide))
  have hs6 := runSub_id_of_trigger (ruleEmph '_' "[italic]".data "[/italic]".data) '_'
    (fun c cs h => ruleEmph_none '_' _ _ h)
    (linkRepl ('#' :: idL) labL) (hno '_' (by decide))
  have hs7 := runSub_id_of_trigger (ruleEmph '~' "[strike]".data "[/strike]".data) '~'
    (fun c cs h => ruleEmph_none '~' _ _ h)
    (linkRepl ('#' :: idL) labL) (hno '~' (by decide))
  show runSub (ruleEmph '~' "[strike]".data "[/strike]".data)
      (runSub (ruleEmph '_' "[italic]".data "[/italic]".data)
        (runSub (ruleEmph '*' "[bold]".data "[/bold]".data)
          (runSub (rule4 cc)
            (runSub (rule3 uc)
              (runSub rule2
                (runSub rule1 ('<' :: '#' :: (idL ++ '|' :: (labL ++ ['>'])))))))))
      = linkRepl ('#' :: idL) labL
  rw [hs1, hs2, hs3, hs4, hs5, hs6, hs7]

lemma parseCore_channel_empty (uc cc : String → Option String) (idL : List Char)
    (hid : idL ≠ [] ∧ ∀ c ∈ idL, isUpperAlnum c = true)
    (hres : ∀ c ∈ ((cc (String.mk idL)).getD (String.mk idL)).data, plainChar c = true) :
    parseCore uc cc ('<' :: '#' :: (idL ++ '|' :: '>' :: []))
      = '#' :: ((cc (String.mk idL)).getD (String.mk idL)).data := by
  have htail : '<' ∉ ('#' :: (idL ++ '|' :: '>' :: [])) := by
    intro hm
    rcases List.mem_cons.mp hm with h | h
    · exact absurd h (by decide)
    · rcases List.mem_append.mp h with h2 | h2
      · exact absurd (hid.2 '<' h2) (by decide)
      · rcases List.mem_cons.mp h2 with h3 | h3
        · exact absurd h3 (by decide)
        · rcases List.mem_cons.mp h3 with h4 | h4
          · exact absurd h4 (by decide)
          · simp at h4
  have hs1 := runSub_id_of_head rule1 '<' (fun c cs h => rule1_none h)
    ('#' :: (idL ++ '|' :: '>' :: [])) (rule1_channel_empty idL hid) htail
  have hs2 := runSub_id_of_head rule2 '<' (fun c cs h => rule2_none h)
    ('#' :: (idL ++ '|' :: '>' :: [])) (rule2_hash _) htail
  have hs3 := runSub_id_of_head (rule3 uc) '<' (fun c cs h => rule3_none uc h)
    ('#' :: (idL ++ '|' :: '>' :: [])) (rule3_hash uc _) htail
  have hs4 := runSub_full (rule4 cc) ('<' :: '#' :: (idL ++ '|' :: '>' :: []))
    ('#' :: ((cc (String.mk idL)).getD (String.mk idL)).data)
    (rule4_channel_empty cc idL hid) (by simp)
  have hplain : ∀ c ∈ ('#' :: ((cc (String.mk idL)).getD (String.mk idL)).data),
      plainChar c = true := by
    intro c hc
    rcases List.mem_cons.mp hc with rfl | h
    · decide
    · exact hres c h
  have hno : ∀ t : Char, plainChar t = false →
      t ∉ ('#' :: ((cc (String.mk idL)).getD (String.mk idL)).data) :=
    fun t ht => plain_not_mem _ hplain t ht
  have hs5 := runSub_id_of_trigger (ruleEmph '*' "[bold]".data "[/bold]".data) '*'
    (fun c cs h => ruleEmph_none '*' _ _ h)
    ('#' :: ((cc (String.mk idL)).getD (String.mk idL)).data) (hno '*' (by decide))
  have hs6 := runSub_id_of_trigger (ruleEmph '_' "[italic]".data "[/italic]".data) '_'
    (fun c cs h => ruleEmph_none '_' _ _ h)
    ('#' :: ((cc (String.mk idL)).getD (String.mk idL)).data) (hno '_' (by decide))
  have hs7 := runSub_id_of_trigger (ruleEmph '~' "[strike]".data "[/strike]".data) '~'
    (fun c cs h => ruleEmph_none '~' _ _ h)
    ('#' :: ((cc (String.mk idL)).getD (String.mk idL)).data) (hno '~' (by decide))
  show runSub (ruleEmph '~' "[strike]".data "[/strike]".data)
      (runSub (ruleEmph '_' "[italic]".data "[/italic]".data)
        (runSub (ruleEmph '*' "[bold]".data "[/bold]".data)
          (runSub (rule4 cc)
            (runSub (rule3 uc)
              (runSub rule2
                (runSub rule1 ('<' :: '#' :: (idL ++ '|' :: '>' :: []))))))))
      = '#' :: ((cc (String.mk idL)).getD (String.mk idL)).data
  rw [hs1, hs2, hs3, hs4, hs5, hs6, hs7]

lemma data_append (a b : String) : (a ++ b).data = a.data ++ b.data := rfl

/-- C6 counterexample: a channel mention with the non-empty label general is
consumed by the earlier generic-hyperlink rule and rendered as a labeled
hyperlink, not as hash-label, even though the channel cache knows the
channel. -/
theorem c6_channel_label_counterexample :
    parse_slack_formatting "<#C123|general>" (fun _ => none)
        (fun c => if c = "C123" then some "general" else none)
        = "[link=\"#C123\"][blue]general[/blue][/link]"
    ∧ parse_slack_formatting "<#C123|general>" (fun _ => none)
        (fun c => if c = "C123" then some "general" else none) ≠ "#general" :=
  ⟨by decide, by decide⟩

/-- C6 amended: under the declared rule ordering, an inbound channel
mention whose label is non-empty (and free of markup metacharacters) is
consumed by the earlier labeled-hyperlink rule and renders as a labeled
hyperlink showing the label; only a channel mention with an empty label
reaches the channel rule and renders as hash followed by the resolved or
raw channel id. -/
theorem c6_channel_mention_amended (ucache ccache : String → Option String)
    (id lab : String)
    (hid : id.data ≠ [] ∧ ∀ c ∈ id.data, isUpperAlnum c = true)
    (hlab : lab.data ≠ [] ∧ ∀ c ∈ lab.data, plainChar c = true)
    (hres : ∀ c ∈ ((ccache id).getD id).data, plainChar c = true) :
    parse_slack_formatting ("<#" ++ id ++ "|" ++ lab ++ ">") ucache ccache
        = "[link=\"#" ++ id ++ "\"][blue]" ++ lab ++ "[/blue][/link]"
    ∧ parse_slack_formatting ("<#" ++ id ++ "|>") ucache ccache
        = "#" ++ (ccache id).getD id := by
  constructor
  · have hcore := parseCore_channel_label ucache ccache id.data lab.data hid hlab
    have hdat : ("<#" ++ id ++ "|" ++ lab ++ ">").data
        = '<' :: '#' :: (id.data ++ '|' :: (lab.data ++ ['>'])) := by
      rw [data_append, data_append, data_append, data_append]
      rw [show "<#".data = ['<', '#'] from rfl, show "|".data = ['|'] from rfl,
        show ">".data = ['>'] from rfl]
      simp
    have hlr : ("[link=\"#" ++ id ++ "\"][blue]" ++ lab ++ "[/blue][/link]").data
        = linkRepl ('#' :: id.data) lab.data := by
      rw [data_append, data_append, data_append, data_append]
      rw [show "[link=\"#".data = "[link=\"".data ++ ['#'] from rfl]
      unfold linkRepl
      simp
    show String.mk (parseCore ucache ccache ("<#" ++ id ++ "|" ++ lab ++ ">").data)
        = "[link=\"#" ++ id ++ "\"][blue]" ++ lab ++ "[/blue][/link]"
    rw [hdat, hcore, ← hlr]
  · have hcore := parseCore_channel_empty ucache ccache id.data hid
      (by
        have hmk : String.mk id.data = id := rfl
        rw [hmk]
        exact hres)
    have hdat : ("<#" ++ id ++ "|>").data
        = '<' :: '#' :: (id.data ++ '|' :: '>' :: []) := by
      rw [data_append, data_append]
      rw [show "<#".data = ['<', '#'] from rfl, show "|>".data = ['|', '>'] from rfl]
      simp
    have hrs : ("#" ++ (ccache id).getD id).data
        = '#' :: ((ccache id).getD id).data := by
      rw [data_append, show "#".data = ['#'] from rfl]
      simp
    show String.mk (parseCore ucache ccache ("<#" ++ id ++ "|>").data)
        = "#" ++ (ccache id).getD id
    rw [hdat, hcore]
    have hmk : String.mk id.data = id := rfl
    rw [hmk, ← hrs]

/-- C6 amended witness: id C123 with label general, and with the empty
label on an empty channel cache. -/
theorem c6_channel_mention_amended_witness :
    parse_slack_formatting ("<#" ++ "C123" ++ "|" ++ "general" ++ ">")
        (fun _ => none) (fun _ => none)
        = "[link=\"#" ++ "C123" ++ "\"][blue]" ++ "general" ++ "[/blue][/link]"
    ∧ parse_slack_formatting ("<#" ++ "C123" ++ "|>") (fun _ => none) (fun _ => none)
        = "#" ++ (((fun _ => none : String → Option String) "C123").getD "C123") :=
  c6_channel_mention_amended (fun _ => none) (fun _ => none) "C123" "general"
    ⟨by decide, by decide⟩ ⟨by decide, by decide⟩ (by decide)

/-- C7: inbound translation never raises: the substitution pipeline always
returns a result (parseAttempt is Except.ok on every input) and
parse_slack_formatting returns exactly that result, the except branch that
would return the original text never being taken; concretely, the mention
of U9 under an empty user cache renders with the raw id U9. -/
theorem c7_inbound_never_raises :
    parse_slack_formatting "<@U9>" (fun _ => none) (fun _ => none)
        = "[yellow]@U9[/yellow]"
    ∧ ∀ (text : String) (ucache ccache : String → Option String),
        parseAttempt text ucache ccache
          = Except.ok (parse_slack_formatting text ucache ccache) :=
  ⟨by decide, fun _ _ _ => rfl⟩

/-- C9: mention translation round-trips through the cache U1-alice: inbound
wire text renders the mention with the name alice; outbound at-alice (in
any letter case) resolves back to the wire mention through the reverse
index; format_user_input leaves the plain text unchanged on the way. -/
theorem c9_mention_round_trip :
    parse_slack_formatting "<@U1> hi" (fun u => if u = "U1" then some "alice" else none)
        (fun _ => none) = "[yellow]@alice[/yellow] hi"
    ∧ resolve_mentions_in_message "@alice hi" [("U1", "alice")] = "<@U1> hi"
    ∧ resolve_mentions_in_message "@ALICE hi" [("U1", "alice")] = "<@U1> hi"
    ∧ format_user_input "@alice hi" = "@alice hi" :=
  ⟨by decide, by decide, by decide, by decide⟩

end SlackBot
